import Mathlib

/-!
# NMOScillatorCompiler — verified model of the core

A shallow embedding of the Go sources of `QEStudios/NMOScillatorCompiler`:

* the `nmos` frame model (`Frame`, its command API, size calculation),
* the binary emitter (`Command.toBytes`, `NmosSong.compile`),
* the Furnace text-parser fragments that the checked properties touch
  (pitch / volume / effect cell parsing, row handling),
* the IR-to-frame lowering engine (`parseNmos`).

Go's `uint8` / `uint16` / `int` values are modelled as `Nat` / `Int` with
explicit wrap-around (`% 256`, `Int.emod`) at the points where the Go code
relies on fixed-width arithmetic.  Go's `float64` tick rates appear only as
arguments to the tempo solver `FindBestRate`; that solver is floating-point
code and is abstracted as an oracle parameter `solver : ℚ → Option (Nat × Nat)`
wherever the lowering engine consults it (the control-flow properties proved
below do not depend on the numbers it returns).  Fallible Go code
(`(T, error)` returns) becomes `Except String`.  Go runtime panics
(slice-index / division-by-zero) are modelled as explicit `Except.error`
results whose message starts with `panic:`.
-/

deriving instance DecidableEq for Except

/-! ## nmos core types (`nmos` package) -/

/-- `CommandType` from the `nmos` package. -/
inductive CommandType where
  | setSquarePeriodCommand
  | setAttenuationCommand
  | setNoiseControlCommand
deriving DecidableEq

/-- `NoiseMode` from the `nmos` package (`PeriodicNoise`, `WhiteNoise`). -/
inductive NoiseMode where
  | periodicNoise
  | whiteNoise
deriving DecidableEq

/-- `NoiseRate` from the `nmos` package. -/
inductive NoiseRate where
  | lowNoise
  | mediumNoise
  | highNoise
  | channel3Noise
deriving DecidableEq

/-- An SN76489 `command` struct.  The Go struct is a flat bag of fields with a
discriminator; Go zero values are the listed defaults. -/
structure Command where
  commandType : CommandType
  channel : Nat := 0
  period : Nat := 0
  attenuation : Nat := 0
  noiseMode : NoiseMode := NoiseMode.periodicNoise
  noiseRate : NoiseRate := NoiseRate.lowNoise
deriving DecidableEq

/-- A single `Frame` in a song.  `frameDelay` is the Go `uint8` field. -/
structure Frame where
  commands : List Command := []
  frameDelay : Nat := 0
  hasTempoChange : Bool := false
  tempo : Nat := 0
  loopToTarget : Bool := false
deriving DecidableEq

/-- `NmosSong`.  `loopTarget` is a Go `int` that the code only ever assigns
non-negative values, modelled as `Nat`. -/
structure NmosSong where
  name : String := ""
  author : String := ""
  initialTempo : Nat := 0
  clockDiv : Bool := false
  frames : List Frame := []
  loopTarget : Nat := 0
deriving DecidableEq

/-- `maxSquarePeriod = (1 << 10) - 1`. -/
def maxSquarePeriod : Nat := 1023
/-- `maxAttenuation = (1 << 4) - 1`. -/
def maxAttenuation : Nat := 15
/-- `maxTempo = (1 << 7) - 1`. -/
def maxTempo : Nat := 127

/-- `Frame.SetNewTempo`: record a tempo change, failing on a duplicate call or
an out-of-range tempo. -/
def Frame.setNewTempo (f : Frame) (tempo : Nat) : Except String Frame :=
  if f.hasTempoChange then
    .error "frame already has a tempo change"
  else if tempo > maxTempo then
    .error "tempo out of range"
  else
    .ok { f with tempo := tempo, hasTempoChange := true }

/-- `Frame.commandAlreadyExists`: is there already a command of this type for
this channel (noise-control commands ignore the channel argument)? -/
def Frame.commandAlreadyExists (f : Frame) (ct : CommandType) (channel : Nat) : Bool :=
  f.commands.any fun cmd =>
    cmd.commandType = ct &&
      (cmd.commandType = CommandType.setNoiseControlCommand || cmd.channel = channel)

/-- `Frame.SetSquarePeriod`. -/
def Frame.setSquarePeriod (f : Frame) (channel : Nat) (period : Nat) : Except String Frame :=
  if channel > 2 then
    .error "square channel out of range"
  else if period > maxSquarePeriod then
    .error "square period out of range"
  else if f.commandAlreadyExists CommandType.setSquarePeriodCommand channel then
    .error "square period already set for channel in this frame"
  else
    .ok { f with commands := f.commands ++
      [{ commandType := CommandType.setSquarePeriodCommand
         channel := channel, period := period }] }

/-- `Frame.SetAttenuation`. -/
def Frame.setAttenuation (f : Frame) (channel : Nat) (attenuation : Nat) : Except String Frame :=
  if channel > 3 then
    .error "channel out of range"
  else if attenuation > maxAttenuation then
    .error "attenuation out of range"
  else if f.commandAlreadyExists CommandType.setAttenuationCommand channel then
    .error "attenuation already set for channel in this frame"
  else
    .ok { f with commands := f.commands ++
      [{ commandType := CommandType.setAttenuationCommand
         channel := channel, attenuation := attenuation }] }

/-- `Frame.SetNoiseControl`.  The Go mode/rate validity checks cannot fail in
this embedding because `NoiseMode` / `NoiseRate` are closed enumerations. -/
def Frame.setNoiseControl (f : Frame) (mode : NoiseMode) (rate : NoiseRate) :
    Except String Frame :=
  if f.commandAlreadyExists CommandType.setNoiseControlCommand 0 then
    .error "noise control already set in this frame"
  else
    .ok { f with commands := f.commands ++
      [{ commandType := CommandType.setNoiseControlCommand
         channel := 3, noiseMode := mode, noiseRate := rate }] }

/-! ## Frame and song size calculation -/

/-- `Frame.CalculateSize`: the byte size of a frame, exactly as the Go source
computes it (tempo changes force 15 bytes; otherwise header plus command wire
bytes plus a conditional frame-delay byte). -/
def Frame.calculateSize (f : Frame) : Nat :=
  if f.hasTempoChange then 15
  else
    let runningTotal := f.commands.foldl
      (fun acc command =>
        if command.commandType = CommandType.setSquarePeriodCommand then acc + 2
        else acc + 1) 1
    if runningTotal > 1 ∨ f.frameDelay > 0 then runningTotal + 1 else runningTotal

/-- Per-frame size inside `NmosSong.CalculateSize`: frame 0 without a tempo
change is forced to 15 bytes (it will carry the injected initial tempo). -/
def songFrameSize (i : Nat) (frame : Frame) : Nat :=
  if i = 0 ∧ ¬frame.hasTempoChange then 15 else frame.calculateSize

/-- `NmosSong.CalculateSize`: sum of frame sizes with the frame-0 special
case. -/
def NmosSong.calculateSize (s : NmosSong) : Nat :=
  (s.frames.enum.map fun p => songFrameSize p.1 p.2).sum

/-- Wire length of one command (2 bytes for a square-period command, 1 byte
for every other command), as the spec's size table states it. -/
def commandWireLength (c : Command) : Nat :=
  if c.commandType = CommandType.setSquarePeriodCommand then 2 else 1

/-- Total wire length of a command list. -/
def wireSum (cs : List Command) : Nat := (cs.map commandWireLength).sum

theorem calculateSize_foldl (cs : List Command) (acc : Nat) :
    cs.foldl
      (fun acc command =>
        if command.commandType = CommandType.setSquarePeriodCommand then acc + 2
        else acc + 1) acc = acc + wireSum cs := by
  induction cs generalizing acc with
  | nil => simp [wireSum]
  | cons c cs ih =>
    simp only [List.foldl_cons, ih, wireSum, List.map_cons, List.sum_cons, commandWireLength]
    split <;> omega

theorem wireSum_pos_iff (cs : List Command) : 0 < wireSum cs ↔ cs ≠ [] := by
  cases cs with
  | nil => simp [wireSum]
  | cons c cs =>
    simp only [wireSum, List.map_cons, List.sum_cons, ne_eq, reduceCtorEq, not_false_iff,
      iff_true, commandWireLength]
    split <;> omega

/-- `CalculateSize` in the spec's form: a tempo change forces 15; otherwise
1 header byte plus the wire lengths plus a conditional delay byte. -/
theorem calculateSize_eq_spec_form (f : Frame) :
    f.calculateSize =
      if f.hasTempoChange then 15
      else 1 + wireSum f.commands +
        (if f.commands ≠ [] ∨ 0 < f.frameDelay then 1 else 0) := by
  unfold Frame.calculateSize
  by_cases h : f.hasTempoChange
  · simp [h]
  · simp only [h, if_false, Bool.false_eq_true, calculateSize_foldl]
    have hiff := wireSum_pos_iff f.commands
    by_cases hc : f.commands = []
    · simp only [hc, ne_eq, not_true_eq_false, false_or]
      have : wireSum ([] : List Command) = 0 := by simp [wireSum]
      simp only [hc, this]
      split <;> split <;> omega
    · have hpos : 0 < wireSum f.commands := hiff.mpr hc
      simp only [ne_eq, hc, not_false_iff, true_or, if_true]
      have : 1 + wireSum f.commands > 1 := by omega
      split
      · omega
      · omega

/-- C5.  For every frame `F`: a tempo change forces size 15; otherwise the
size is 1 header byte plus the sum of command wire lengths (2 bytes per
square-period command, 1 byte otherwise), plus one frame-delay byte exactly
when `F` has at least one command or a positive frame delay; a frame with no
commands and zero delay has size 1. -/
theorem frame_calculateSize_spec (f : Frame) :
    f.calculateSize =
      if f.hasTempoChange then 15
      else 1 + wireSum f.commands +
        (if f.commands ≠ [] ∨ 0 < f.frameDelay then 1 else 0) :=
  calculateSize_eq_spec_form f

/-! ## Binary emitter (`nmos` package, `Compile`) -/

/-- `command.toBytes`: the ROM byte(s) of one SN76489 command, bit-for-bit as
the Go source assembles them. -/
def Command.toBytes (c : Command) : List Nat :=
  match c.commandType with
  | CommandType.setSquarePeriodCommand =>
      [(0x80 ||| ((c.channel &&& 0b111) <<< 5)) ||| (c.period &&& 0b1111),
       (c.period >>> 4) &&& 0b111111]
  | CommandType.setAttenuationCommand =>
      [(0x90 ||| ((c.channel &&& 0b111) <<< 5)) ||| (c.attenuation &&& 0b1111)]
  | CommandType.setNoiseControlCommand =>
      let mode : Nat := match c.noiseMode with
        | NoiseMode.periodicNoise => 0
        | NoiseMode.whiteNoise => 1
      let rate : Nat := match c.noiseRate with
        | NoiseRate.highNoise => 0
        | NoiseRate.mediumNoise => 1
        | NoiseRate.lowNoise => 2
        | NoiseRate.channel3Noise => 3
      [((0x80 ||| ((c.channel &&& 0b111) <<< 5)) ||| ((mode &&& 1) <<< 2)) |||
        (rate &&& 0b11)]

/-- The command-countdown loop inside `NmosSong.Compile`, for one frame.
`c` is the Go countdown index (an `int`), `chipIdx` the index of the next
chip command to emit, `lastCommand` the last chip byte written (used for
filler bytes).  `fuel` bounds the iteration count (every Go iteration
strictly decreases `c`, so `fuel = c.toNat` iterations always suffice); the
fuel-exhausted and unknown-index branches mirror nontermination-impossible
states and the Go `panic` respectively. -/
def emitLoop (frame : Frame) : Nat → Int → Nat → Nat → List Nat →
    Except String (List Nat)
  | 0, c, _, _, acc =>
      if c > 0 then .error "model: out of fuel" else .ok acc
  | fuel + 1, c, chipIdx, lastCommand, acc =>
      if c ≤ 0 then .ok acc
      else if c = 14 then
        if frame.hasTempoChange then
          emitLoop frame fuel (c - 1) chipIdx lastCommand
            (acc ++ [frame.tempo &&& 0x7f])
        else
          emitLoop frame fuel (c - 1) chipIdx lastCommand acc
      else if c = 1 then
        emitLoop frame fuel (c - 1) chipIdx lastCommand (acc ++ [frame.frameDelay])
      else if 1 < c ∧ c < 14 then
        if chipIdx ≥ frame.commands.length then
          emitLoop frame fuel (c - 1) chipIdx lastCommand (acc ++ [lastCommand])
        else
          match frame.commands.get? chipIdx with
          | none => .error "model: unreachable chip index"
          | some cmd =>
              let commandBytes := cmd.toBytes
              emitLoop frame fuel (c - commandBytes.length) (chipIdx + 1)
                (commandBytes.getLastD 0) (acc ++ commandBytes)
      else
        .error "panic: encountered command index"

/-- Emission of a single frame: header byte then the countdown loop.
`numCommands` is the Go `int` expression `frameSize&0x0f - 1`; the header's
low bits take `byte(numCommands)` (modelled with `Int.emod 256`). -/
def compileFrame (isLoopTarget : Bool) (frame : Frame) : Except String (List Nat) :=
  let frameSize := frame.calculateSize
  let numCommands : Int := (frameSize &&& 0x0f : Nat) - 1
  let header : Nat :=
    ((if isLoopTarget then 0x80 else 0) ||| (if frame.loopToTarget then 0x40 else 0)) |||
      (numCommands.emod 256).toNat
  match emitLoop frame frameSize numCommands 0 0 [] with
  | .error e => .error e
  | .ok body => .ok (header :: body)

/-- `i == 0` logic of `Compile` and `String`: call `SetNewTempo` on the
loop-local copy of frame 0 with the song's initial tempo, ignoring the
error when the frame already has a tempo change (or the tempo is out of
range). -/
def injectInitialTempo (s : NmosSong) (i : Nat) (frame : Frame) : Frame :=
  if i = 0 then
    match frame.setNewTempo s.initialTempo with
    | .ok f => f
    | .error _ => frame
  else frame

/-- The frame loop of `NmosSong.Compile` over the indexed frame list. -/
def compileFrames (s : NmosSong) : List (Nat × Frame) → Except String (List Nat)
  | [] => .ok []
  | (i, f) :: rest =>
      match compileFrame (i == s.loopTarget) (injectInitialTempo s i f) with
      | .error e => .error e
      | .ok bytes =>
          match compileFrames s rest with
          | .error e => .error e
          | .ok restBytes => .ok (bytes ++ restBytes)

/-- `NmosSong.Compile`: emit every frame, then check the buffer length against
the precomputed song size (`EmitSizeMismatch` on disagreement). -/
def NmosSong.compile (s : NmosSong) : Except String (List Nat) :=
  match compileFrames s s.frames.enum with
  | .error e => .error e
  | .ok buffer =>
      if buffer.length ≠ s.calculateSize then .error "ROM image size mismatch"
      else .ok buffer

/-! ## Heap threading for `Compile` and `String` (Go value semantics)

In Go, `for i, frame := range s.Frames` binds `frame` to a struct copy of
`s.Frames[i]`; `frame.SetNewTempo(...)` has a pointer receiver and is called
on the addressable loop-local copy, so its writes land in the copy.  The
`commands` slice header inside the copy shares its backing array with the
original, but both `Compile` and `String` only read it.  Neither function
contains an assignment through `s` or into `s.Frames`, so threading the
frames list ("the heap") through the loop returns it unchanged.  These
definitions make that threading explicit so it can be stated as a theorem. -/

/-- The frame loop of `Compile` with the song's frame storage threaded
through: each iteration works on the local copy `injectInitialTempo s i f`
and performs no write-back into `heap`. -/
def compileRangeHeap (s : NmosSong) : List (Nat × Frame) → List Frame → List Frame
  | [], heap => heap
  | (i, f) :: rest, heap =>
      let localFrame := injectInitialTempo s i f
      let _ := compileFrame (i == s.loopTarget) localFrame
      compileRangeHeap s rest heap

/-- The frame loop of `NmosSong.String` with the frame storage threaded
through: the pretty-printer performs the same frame-0 tempo injection on its
loop-local copy and otherwise only reads (`formatCommandsByChannel`,
`CalculateSize`, field accesses), with no write-back into `heap`. -/
def stringRangeHeap (s : NmosSong) : List (Nat × Frame) → List Frame → List Frame
  | [], heap => heap
  | (i, f) :: rest, heap =>
      let localFrame := injectInitialTempo s i f
      let _ := localFrame.calculateSize
      stringRangeHeap s rest heap

theorem compileRangeHeap_eq (s : NmosSong) (l : List (Nat × Frame)) (heap : List Frame) :
    compileRangeHeap s l heap = heap := by
  induction l with
  | nil => rfl
  | cons p rest ih => cases p; simp [compileRangeHeap, ih]

theorem stringRangeHeap_eq (s : NmosSong) (l : List (Nat × Frame)) (heap : List Frame) :
    stringRangeHeap s l heap = heap := by
  induction l with
  | nil => rfl
  | cons p rest ih => cases p; simp [stringRangeHeap, ih]

/-- C10.  `Compile` and the pretty-printer never mutate the `NmosSong` they
are given: the per-frame tempo injection happens on the loop-local copy
(`injectInitialTempo`), and threading the song's frame storage through either
loop returns it unchanged — after either call every frame of the song
(including frame 0's tempo-change flag, tempo value and command list) is what
it was before. -/
theorem compile_string_no_mutation (s : NmosSong) :
    compileRangeHeap s s.frames.enum s.frames = s.frames ∧
      stringRangeHeap s s.frames.enum s.frames = s.frames :=
  ⟨compileRangeHeap_eq s s.frames.enum s.frames,
   stringRangeHeap_eq s s.frames.enum s.frames⟩

/-! ## Pitch cells (`furnace` package) -/

/-- ASCII uppercasing of one character, as Go's `strings.ToUpper` acts on the
ASCII pitch cells this parser receives. -/
def goToUpper (ch : Char) : Char :=
  if 'a' ≤ ch ∧ ch ≤ 'z' then Char.ofNat (ch.toNat - 32) else ch

/-- `strings.ToUpper` over the cell. -/
def stringToUpper (s : String) : String := String.mk (s.data.map goToUpper)

/-- The `noteBase` map; a Go map lookup of a missing key yields the zero
value 0. -/
def noteBase (ch : Char) : Int :=
  if ch = 'C' then 0
  else if ch = 'D' then 2
  else if ch = 'E' then 4
  else if ch = 'F' then 5
  else if ch = 'G' then 7
  else if ch = 'A' then 9
  else if ch = 'B' then 11
  else 0

/-- `isValidPitchString`: 3 characters, uppercased; letter `A`..`G`;
accidental `#`, `+`, `-` or `_`; octave digit `0`..`7`, at most `5` when the
accidental is `+` or `_`. -/
def isValidPitchString (s : String) : Bool :=
  match (stringToUpper s).data with
  | [first, second, third] =>
      (decide ('A' ≤ first) && decide (first ≤ 'G')) &&
      (decide ('0' ≤ third) && decide (third ≤ '7')) &&
      (second == '#' || second == '+' || second == '-' || second == '_') &&
      !((second == '+' || second == '_') && decide (third.toNat - '0'.toNat > 5))
  | _ => false

/-- `parsePitchString`: validate, then compute the MIDI number
`(octave+1)*12 + noteBase[letter] + accidental`, negating the octave for the
`+` and `_` accidentals.  (The Go `panic` on an impossible accidental is
unreachable after validation and is folded into the `accidental = 0`
branch.) -/
def parsePitchString (s : String) : Except String Int :=
  if !isValidPitchString s then .error ("invalid pitch string " ++ s)
  else
    match (stringToUpper s).data with
    | [first, second, third] =>
        let octaveMagnitude : Int := (third.toNat : Int) - ('0'.toNat : Int)
        let octave : Int :=
          if second = '+' ∨ second = '_' then -octaveMagnitude else octaveMagnitude
        let accidental : Int := if second = '#' ∨ second = '+' then 1 else 0
        .ok ((octave + 1) * 12 + noteBase first + accidental)
    | _ => .error "invalid pitch string"

/-- C9.  Every pitch cell the validator accepts — uppercase letter `A`..`G`,
accidental in `#`, `+`, `-`, `_`, octave digit `0`..`7` with the digit at
most 5 for the negative-octave accidentals `+` and `_` — parses to the MIDI
number `(octave+1)*12 + base[letter] + accidental`, with the octave negated
for `+`/`_` and accidental 1 exactly for `#`/`+`. -/
theorem parsePitchString_accepted_spec :
    ∀ L ∈ ['A', 'B', 'C', 'D', 'E', 'F', 'G'],
    ∀ A ∈ ['#', '+', '-', '_'],
    ∀ O ∈ ['0', '1', '2', '3', '4', '5', '6', '7'],
    ((A = '+' ∨ A = '_') → O ≤ '5') →
    parsePitchString (String.mk [L, A, O]) =
      .ok (((if A = '+' ∨ A = '_'
              then -((O.toNat : Int) - ('0'.toNat : Int))
              else (O.toNat : Int) - ('0'.toNat : Int)) + 1) * 12 +
            noteBase L + (if A = '#' ∨ A = '+' then 1 else 0)) := by
  decide

/-- Witness for C9 at the spec's boundary examples: `C-4` parses to MIDI 60
and `A+5` parses to MIDI −38. -/
theorem parsePitchString_accepted_spec_witness :
    parsePitchString (String.mk ['C', '-', '4']) = .ok 60 ∧
      parsePitchString (String.mk ['A', '+', '5']) = .ok (-38) := by
  constructor
  · exact (parsePitchString_accepted_spec 'C' (by decide) '-' (by decide) '4' (by decide)
      (by decide)).trans (by decide)
  · exact (parsePitchString_accepted_spec 'A' (by decide) '+' (by decide) '5' (by decide)
      (by decide)).trans (by decide)

/-! ## Blank-frame coalescing (`parseNmos`) -/

/-- Total playback time of a frame list in Frame Clock cycles: each frame
takes `frame_delay + 1` cycles. -/
def sumFrameTime (frames : List Frame) : Nat :=
  (frames.map fun f => f.frameDelay + 1).sum

/-- The coalescing write in `parseNmos`:
`song.Frames[len(song.Frames)-1].FrameDelay += baseFrameDelay`.  The caller
guards it with `prev.FrameDelay + baseFrameDelay <= 255`, so the `uint8`
addition never wraps. -/
def addDelayToLast (frames : List Frame) (d : Nat) : List Frame :=
  frames.dropLast ++
    [{ frames.getLastD {commands := []} with
        frameDelay := (frames.getLastD {commands := []}).frameDelay + d }]

/-- Modelled from the spec's coalescing clause, for comparison with
`addDelayToLast`: append the blank frame (with
`frame_delay = base_frame_delay`) "as its own frame". -/
def specAppendBlankFrame (frames : List Frame) (d : Nat) : List Frame :=
  frames ++ [{ frameDelay := d }]

/-- Counterexample for C4.  With one previous frame of delay 0 and base
frame delay 6, coalescing yields total time 7 Frame Clock cycles while
appending the blank frame as its own frame would yield 8 — coalescing loses
exactly the blank frame's header cycle, so total playback time is *not* the
same. -/
theorem coalescing_time_cex :
    sumFrameTime (addDelayToLast [{ commands := [] }] 6) = 7 ∧
      sumFrameTime (specAppendBlankFrame [{ commands := [] }] 6) = 8 ∧
      sumFrameTime (addDelayToLast [{ commands := [] }] 6) ≠
        sumFrameTime (specAppendBlankFrame [{ commands := [] }] 6) := by
  decide

/-- C4, amended.  When a blank row is coalesced (the previous frame exists
and the guard `prev.frameDelay + d ≤ 255` holds), the coalescing write adds
exactly `d` Frame Clock cycles to the total playback time, one cycle fewer
than the `d + 1` cycles that appending the blank frame as its own frame
would add. -/
theorem coalescing_adds_base_delay (frames : List Frame) (d : Nat)
    (hne : frames ≠ [])
    (hguard : (frames.getLastD {commands := []}).frameDelay + d ≤ 255) :
    sumFrameTime (addDelayToLast frames d) = sumFrameTime frames + d ∧
      sumFrameTime (specAppendBlankFrame frames d) = sumFrameTime frames + d + 1 := by
  clear hguard
  rcases frames.eq_nil_or_concat with rfl | ⟨front, last, rfl⟩
  · exact absurd rfl hne
  · constructor
    · simp [addDelayToLast, sumFrameTime, List.dropLast_concat, List.getLastD_concat]
      omega
    · simp [specAppendBlankFrame, sumFrameTime]
      omega

/-- Witness for the amended C4 at a concrete frame list. -/
theorem coalescing_adds_base_delay_witness :
    sumFrameTime (addDelayToLast [{ commands := [] }] 6) =
        sumFrameTime [({ commands := [] } : Frame)] + 6 ∧
      sumFrameTime (specAppendBlankFrame [{ commands := [] }] 6) =
        sumFrameTime [({ commands := [] } : Frame)] + 6 + 1 :=
  coalescing_adds_base_delay [{ commands := [] }] 6 (by decide) (by decide)

/-! ## Effect, volume and note cells (`furnace` package) -/

/-- Hex digit value, as `strconv.ParseUint(…, 16, …)` accepts digits. -/
def hexDigitVal (ch : Char) : Option Nat :=
  if '0' ≤ ch ∧ ch ≤ '9' then some (ch.toNat - 48)
  else if 'a' ≤ ch ∧ ch ≤ 'f' then some (ch.toNat - 87)
  else if 'A' ≤ ch ∧ ch ≤ 'F' then some (ch.toNat - 55)
  else none

/-- `strconv.ParseUint(s, 16, bitSize)`: all characters must be hex digits,
the string must be non-empty, and the value must fit in `bitSize` bits. -/
def parseUintHex (cs : List Char) (bitSize : Nat) : Option Nat :=
  if cs = [] then none
  else
    (cs.foldl (fun acc ch => acc.bind fun a => (hexDigitVal ch).map fun d => a * 16 + d)
        (some 0)).bind
      fun v => if v < 2 ^ bitSize then some v else none

/-- `EffectType` from the `furnace` package. -/
inductive EffectType where
  | jumpToPattern
  | jumpToNextPattern
  | speed
  | noiseControl
  | tickRateHz
  | tickRateBpm
  | stopSong
deriving DecidableEq

/-- An `Effect` (type plus `uint16` value). -/
structure Effect where
  type : EffectType
  value : Nat
deriving DecidableEq

/-- `isValidEffectString`: 4 characters; the first two parse as an 8-bit hex
number; the last two are `..` or parse as an 8-bit hex number. -/
def isValidEffectString (s : String) : Bool :=
  match s.data with
  | [a, b, c, d] =>
      (parseUintHex [a, b] 8).isSome &&
        ([c, d] == ['.', '.'] || (parseUintHex [c, d] 8).isSome)
  | _ => false

/-- `parseEffectString`: decode the effect id and value.  Ids `0xC0`–`0xCF`
are `TickRateHz` with a 12-bit value; the remaining documented ids map per
the table; any other id is the "unrecognised effect" error. -/
def parseEffectString (s : String) : Except String Effect :=
  if !isValidEffectString s then .error ("invalid effect string " ++ s)
  else
    match s.data with
    | [_, b, c, d] =>
        match parseUintHex [s.data.getD 0 ' ', b] 8 with
        | none => .error "error parsing effect string"
        | some effectId =>
            if 0xC0 ≤ effectId ∧ effectId ≤ 0xCF then
              if [c, d] == ['.', '.'] then
                match parseUintHex [b] 4 with
                | none => .error "error parsing effect string"
                | some v => .ok { type := EffectType.tickRateHz, value := v <<< 8 }
              else
                match parseUintHex [b, c, d] 16 with
                | none => .error "error parsing effect string"
                | some v => .ok { type := EffectType.tickRateHz, value := v }
            else
              match
                (if effectId = 0x0B then some EffectType.jumpToPattern
                 else if effectId = 0x0D then some EffectType.jumpToNextPattern
                 else if effectId = 0x09 ∨ effectId = 0x0F then some EffectType.speed
                 else if effectId = 0x20 then some EffectType.noiseControl
                 else if effectId = 0xF0 then some EffectType.tickRateBpm
                 else if effectId = 0xFF then some EffectType.stopSong
                 else none) with
              | none => .error ("unrecognised effect " ++ s)
              | some effectType =>
                  if [c, d] == ['.', '.'] then .ok { type := effectType, value := 0 }
                  else
                    match parseUintHex [c, d] 8 with
                    | none => .error "error parsing effect string"
                    | some v => .ok { type := effectType, value := v }
    | _ => .error ("invalid effect string " ++ s)

/-- `isValidVolumeString`: two characters, first `'0'`, second a hex digit
`0`–`9` or (after uppercasing) `A`–`F`. -/
def isValidVolumeString (s : String) : Bool :=
  match s.data with
  | [a, b] =>
      a == '0' &&
        ((decide ('0' ≤ b) && decide (b ≤ '9')) ||
          (decide ('A' ≤ goToUpper b) && decide (goToUpper b ≤ 'F')))
  | _ => false

/-- `parseVolumeString`: validate, then `ParseUint(s, 16, 4)`. -/
def parseVolumeString (s : String) : Except String Nat :=
  if !isValidVolumeString s then .error ("invalid volume string " ++ s)
  else
    match parseUintHex s.data 4 with
    | none => .error "error parsing volume string"
    | some v => .ok v

/-- A `Note` from the `furnace` package (Go zero values as defaults). -/
structure FurnaceNote where
  pitch : Int := 0
  hasPitch : Bool := false
  volume : Nat := 0
  hasVolume : Bool := false
  off : Bool := false
  channel : Nat := 0
deriving DecidableEq

/-- Split the tail of a cleaned note cell into 4-character effect groups (the
length check in `parseNote` guarantees a multiple of four). -/
def effectChunks : List Char → List (List Char)
  | a :: b :: c :: d :: rest => [a, b, c, d] :: effectChunks rest
  | _ => []

/-- The effect loop at the end of `parseNote`: skip `....` groups, propagate
the first parse error, collect the rest. -/
def parseNoteEffects : List (List Char) → Except String (List Effect)
  | [] => .ok []
  | chunk :: rest =>
      if chunk = ['.', '.', '.', '.'] then parseNoteEffects rest
      else
        match parseEffectString (String.mk chunk) with
        | .error e => .error e
        | .ok effect =>
            match parseNoteEffects rest with
            | .error e => .error e
            | .ok effects => .ok (effect :: effects)

/-- `parseNote`: strip whitespace, check the `(len-11) % 4` length rule (Go
truncated remainder on `int`), slice out pitch and volume, parse the effect
groups.  A cleaned length of 3 passes the length check but makes the Go
slice `cleaned[5:7]` panic, modelled as an explicit error. -/
def parseNote (noteString : List Char) : Except String (FurnaceNote × List Effect) :=
  let cleaned := noteString.filter fun ch => !ch.isWhitespace
  if ((cleaned.length : Int) - 11).tmod 4 ≠ 0 then
    .error "invalid note string"
  else if cleaned.length < 7 then
    .error "panic: slice bounds out of range"
  else
    let pitchChars := cleaned.take 3
    let volumeChars := (cleaned.drop 5).take 2
    let pitchStep : Except String (Int × Bool × Bool) :=
      if pitchChars = ['.', '.', '.'] then .ok (0, false, false)
      else if pitchChars = ['O', 'F', 'F'] then .ok (0, false, true)
      else
        match parsePitchString (String.mk pitchChars) with
        | .error e => .error e
        | .ok p => .ok (p, true, false)
    match pitchStep with
    | .error e => .error e
    | .ok (pitch, hasPitch, off) =>
        let volumeStep : Except String (Nat × Bool) :=
          if off then .ok (0, false)
          else if volumeChars = ['.', '.'] then .ok (0, false)
          else
            match parseVolumeString (String.mk volumeChars) with
            | .error e => .error e
            | .ok v => .ok (v, true)
        match volumeStep with
        | .error e => .error e
        | .ok (volume, hasVolume) =>
            match parseNoteEffects (effectChunks (cleaned.drop 7)) with
            | .error e => .error e
            | .ok effects =>
                .ok ({ pitch := pitch, hasPitch := hasPitch, volume := volume,
                       hasVolume := hasVolume, off := off }, effects)

/-! ## Row handling in `parseInternal` (`parsingRows` state) -/

/-- A `Row` of the Song IR. -/
structure FurnaceRow where
  index : Nat := 0
  notes : List FurnaceNote := []
  effects : List Effect := []
deriving DecidableEq

/-- `strings.FieldsFunc(line, r == '|')`: maximal runs between `'|'`
separators, empty runs dropped. -/
def fieldsSplit : List Char → List Char → List (List Char)
  | [], cur => if cur = [] then [] else [cur.reverse]
  | ch :: rest, cur =>
      if ch = '|' then
        if cur = [] then fieldsSplit rest []
        else cur.reverse :: fieldsSplit rest []
      else fieldsSplit rest (ch :: cur)

/-- The per-field loop of the `parsingRows` branch: field 0 (the address) is
skipped; a field whose `parseNote` fails is *recorded as a warning* and
replaced by an empty note carrying only the channel number (its effects are
discarded); a parsed field contributes its note and effects. -/
def processFields : List (Nat × List Char) → FurnaceRow → List String →
    FurnaceRow × List String
  | [], row, warnings => (row, warnings)
  | (i, field) :: rest, row, warnings =>
      if i = 0 then processFields rest row warnings
      else
        match parseNote field with
        | .error e =>
            processFields rest
              { row with notes := row.notes ++ [{ channel := i - 1 }] }
              (warnings ++
                ["error parsing note in channel " ++ toString (i - 1) ++ ": " ++ e])
        | .ok (note, effects) =>
            processFields rest
              { row with notes := row.notes ++ [{ note with channel := i - 1 }],
                         effects := row.effects ++ effects }
              warnings

/-- The `parsingRows` branch of `parseInternal` for one pattern-row line:
split into `|`-fields, then run the per-field loop.  It returns the row that
is appended to the current subsong together with the warnings added — there
is no fatal-error path for malformed cells. -/
def processRowLine (rowCount : Nat) (line : List Char) : FurnaceRow × List String :=
  processFields (fieldsSplit line []).enum { index := rowCount } []

/-- Recognised effect ids (the documented set). -/
def recognisedEffectId (n : Nat) : Prop :=
  n = 0x0B ∨ n = 0x0D ∨ n = 0x09 ∨ n = 0x0F ∨ n = 0x20 ∨
    (0xC0 ≤ n ∧ n ≤ 0xCF) ∨ n = 0xF0 ∨ n = 0xFF

instance (n : Nat) : Decidable (recognisedEffectId n) := by
  unfold recognisedEffectId; infer_instance

/-- Uppercase hex spelling of a digit value. -/
def hexUpperChar (n : Nat) : Char :=
  ['0', '1', '2', '3', '4', '5', '6', '7', '8', '9', 'A', 'B', 'C', 'D', 'E', 'F'].getD n '0'

/-- Counterexample for C2.  The cell `... .. .. 0A00` carries the
unrecognised effect id `0x0A`; `parseEffectString` rejects it, but the row
branch of `parseInternal` turns that into one collected warning, stores an
empty note for channel 0 with the effect discarded, and carries on — parsing
does not abort with a fatal error. -/
theorem unrecognised_effect_not_fatal_cex :
    parseEffectString (String.mk ['0', 'A', '0', '0']) =
        .error ("unrecognised effect " ++ String.mk ['0', 'A', '0', '0']) ∧
      (processRowLine 0
          ("00|... .. .. 0A00".data)).1 =
        { index := 0, notes := [{ channel := 0 }], effects := [] } ∧
      (processRowLine 0 ("00|... .. .. 0A00".data)).2.length = 1 := by
  decide

/-- C2, amended.  For every effect id outside the documented set (spelled in
uppercase hex, with value byte `00`), `parseEffectString` fails with the
"unrecognised effect" error, but the pattern-row handler downgrades the
failure to exactly one warning, stores an empty note for the channel, and
discards the effect — it never aborts parsing. -/
theorem unrecognised_effect_downgraded (x y : Fin 16)
    (h : ¬recognisedEffectId (16 * x.val + y.val)) :
    parseEffectString (String.mk [hexUpperChar x.val, hexUpperChar y.val, '0', '0']) =
        .error ("unrecognised effect " ++
          String.mk [hexUpperChar x.val, hexUpperChar y.val, '0', '0']) ∧
      (processRowLine 0
          (['0', '0', '|', '.', '.', '.', ' ', '.', '.', ' ', '.', '.', ' '] ++
            [hexUpperChar x.val, hexUpperChar y.val, '0', '0'])).1 =
        { index := 0, notes := [{ channel := 0 }], effects := [] } ∧
      (processRowLine 0
          (['0', '0', '|', '.', '.', '.', ' ', '.', '.', ' ', '.', '.', ' '] ++
            [hexUpperChar x.val, hexUpperChar y.val, '0', '0'])).2.length = 1 := by
  revert h
  revert x y
  decide

/-- Witness for the amended C2 at the concrete unrecognised id `0x0A`. -/
theorem unrecognised_effect_downgraded_witness :
    ¬recognisedEffectId 10 ∧
      parseEffectString (String.mk [hexUpperChar 0, hexUpperChar 10, '0', '0']) =
        .error ("unrecognised effect " ++
          String.mk [hexUpperChar 0, hexUpperChar 10, '0', '0']) :=
  ⟨by decide, (unrecognised_effect_downgraded 0 10 (by decide)).1⟩

/-! ## Lowering engine (`parseNmos`)

The Song IR side of the lowering engine.  The tempo solver
(`nmos.FindBestRate`) and the pitch-to-period computation
(`CalculateSquarePeriod(pitchToFreq(...))`) are `float64` code; they are
abstracted as oracle parameters `solver` and `periodOf` — only the values
they return flow into the lowering, never its control flow decisions at
issue here.  Tick rates are carried as `ℚ`. -/

/-- A `SoundChip` of the Song IR. -/
structure FurnaceSoundChip where
  index : Nat := 0
  clockDiv : Bool := false
deriving DecidableEq

/-- A `Subsong` of the Song IR. -/
structure FurnaceSubsong where
  index : Nat := 0
  name : String := ""
  tickRate : ℚ := 50
  patternLength : Nat := 0
  speeds : List Nat := []
  timeBase : Int := 0
  rows : List FurnaceRow := []
deriving DecidableEq

/-- The parsed `Song` (fields the lowering engine reads). -/
structure FurnaceSong where
  name : String := "Unnamed"
  author : String := "Unknown"
  album : String := ""
  soundChips : List FurnaceSoundChip := []
  subsongs : List FurnaceSubsong := []
deriving DecidableEq

/-- `noiseRateTypeEnum` (Go zero value is `noiseRateCh3`). -/
inductive NoiseRateTypeEnum where
  | noiseRateCh3
  | noiseRatePreset
deriving DecidableEq

/-- The mutable locals of `parseNmos`, bundled. -/
structure LowerState where
  song : NmosSong
  baseFrameDelay : Nat
  noiseRateType : NoiseRateTypeEnum
  noiseMode : NoiseMode
  currentSpeed : Nat
  currentTickRate : ℚ
  channelVolumes : List Nat
  channelOffs : List Bool
  isHalted : Bool
  isLooped : Bool
deriving DecidableEq

/-- Prefix an error message, as the Go code wraps API errors with
`fmt.Errorf("…: %v", err)`. -/
def mapErr {α : Type} (e : Except String α) (pre : String) : Except String α :=
  match e with
  | .error m => .error (pre ++ m)
  | .ok v => .ok v

/-- Go slice read: out-of-range indexing is a runtime panic. -/
def goIndex {α : Type} (l : List α) (i : Nat) : Except String α :=
  match l.get? i with
  | some x => .ok x
  | none => .error "panic: index out of range"

/-- Go `uint8` subtraction `a - b` (wraps modulo 256). -/
def sub8 (a b : Nat) : Nat := (((a : Int) - (b : Int)).emod 256).toNat

/-- One iteration of the effect loop of `parseNmos`.  The accumulator is
`(state, frame, isBlank, newIndex)`. -/
def applyEffect (solver : ℚ → Option (Nat × Nat)) (sub : FurnaceSubsong) (rowIndex : Nat)
    (acc : LowerState × Frame × Bool × Nat) (effect : Effect) :
    Except String (LowerState × Frame × Bool × Nat) :=
  let (st, frame, isBlank, newIndex) := acc
  match effect.type with
  | EffectType.jumpToPattern =>
      if sub.patternLength = 0 then .error "panic: integer divide by zero"
      else
        let currentPattern := rowIndex / sub.patternLength
        if effect.value > currentPattern then
          .ok (st, frame, isBlank, effect.value * sub.patternLength)
        else
          .ok ({ st with
                  song := { st.song with
                    loopTarget := effect.value * sub.patternLength + 1 },
                  isLooped := true },
               frame, false, newIndex)
  | EffectType.jumpToNextPattern =>
      if sub.patternLength = 0 then .error "panic: integer divide by zero"
      else
        let currentPattern := rowIndex / sub.patternLength
        .ok (st, frame, isBlank, (currentPattern + 1) * sub.patternLength)
  | EffectType.speed =>
      if sub.speeds.length > 1 then
        .ok (st, frame, isBlank, newIndex)
      else
        let finalTickrate :=
          st.currentTickRate / ((effect.value : ℚ) * ((sub.timeBase : ℚ) + 1))
        match solver finalTickrate with
        | none => .error "unable to find compatible tickrate within an acceptable tolerance"
        | some (tempo, newBaseFrameDelay) =>
            match mapErr (frame.setNewTempo tempo) "error setting frame tempo: " with
            | .error e => .error e
            | .ok frame' =>
                .ok ({ st with baseFrameDelay := newBaseFrameDelay,
                               currentSpeed := effect.value },
                     frame', false, newIndex)
  | EffectType.noiseControl =>
      let rateVal := effect.value >>> 4
      let modeVal := effect.value % 16
      let nrt := if rateVal = 1 then NoiseRateTypeEnum.noiseRateCh3
                 else NoiseRateTypeEnum.noiseRatePreset
      let nm := if modeVal = 1 then NoiseMode.whiteNoise else NoiseMode.periodicNoise
      if nrt = NoiseRateTypeEnum.noiseRateCh3 then
        match mapErr (frame.setNoiseControl nm NoiseRate.channel3Noise)
            "error setting noise control values: " with
        | .error e => .error e
        | .ok frame' =>
            .ok ({ st with noiseRateType := nrt, noiseMode := nm }, frame', false, newIndex)
      else
        .ok ({ st with noiseRateType := nrt, noiseMode := nm }, frame, false, newIndex)
  | EffectType.tickRateHz =>
      let finalTickrate :=
        (effect.value : ℚ) / ((st.currentSpeed : ℚ) * ((sub.timeBase : ℚ) + 1))
      match solver finalTickrate with
      | none => .error "unable to find compatible tickrate within an acceptable tolerance."
      | some (tempo, newBaseFrameDelay) =>
          match mapErr (frame.setNewTempo tempo) "error setting frame tempo: " with
          | .error e => .error e
          | .ok frame' =>
              .ok ({ st with baseFrameDelay := newBaseFrameDelay,
                             currentTickRate := (effect.value : ℚ) },
                   frame', false, newIndex)
  | EffectType.tickRateBpm =>
      let tickRateHz := (effect.value : ℚ) * 24 / 60
      let finalTickrate :=
        tickRateHz / ((st.currentSpeed : ℚ) * ((sub.timeBase : ℚ) + 1))
      match solver finalTickrate with
      | none => .error "unable to find compatible tickrate within an acceptable tolerance"
      | some (tempo, newBaseFrameDelay) =>
          match mapErr (frame.setNewTempo tempo) "error setting frame tempo: " with
          | .error e => .error e
          | .ok frame' =>
              .ok ({ st with baseFrameDelay := newBaseFrameDelay,
                             currentTickRate := tickRateHz },
                   frame', false, newIndex)
  | EffectType.stopSong =>
      .ok ({ st with isHalted := true }, frame, false, newIndex)

/-- The effect loop of `parseNmos` over a row's effects. -/
def applyEffects (solver : ℚ → Option (Nat × Nat)) (sub : FurnaceSubsong) (rowIndex : Nat) :
    List Effect → (LowerState × Frame × Bool × Nat) →
    Except String (LowerState × Frame × Bool × Nat)
  | [], acc => .ok acc
  | e :: rest, acc =>
      match applyEffect solver sub rowIndex acc e with
      | .error err => .error err
      | .ok acc' => applyEffects solver sub rowIndex rest acc'

/-- One iteration of the note loop of `parseNmos`: the sequential `Off`,
`HasVolume` and `HasPitch` blocks.  The channel-3 preset branch maps Go's
`note.Pitch % 12` (truncated `int` remainder, `Int.tmod`) to a noise preset
and is fatal on any other remainder. -/
def applyNote (periodOf : Int → Nat) (acc : LowerState × Frame × Bool)
    (note : FurnaceNote) : Except String (LowerState × Frame × Bool) := do
  let (st, frame, isBlank) := acc
  let (st, frame, isBlank) ←
    if note.off then do
      let frame ← mapErr (frame.setAttenuation note.channel 0xf)
        "error setting channel off: "
      pure ({ st with channelOffs := st.channelOffs.set note.channel true }, frame, false)
    else pure (st, frame, isBlank)
  let (st, frame, isBlank) ←
    if note.hasVolume then do
      let chOff ← goIndex st.channelOffs note.channel
      let frame ←
        if !chOff then
          mapErr (frame.setAttenuation note.channel (sub8 0xf note.volume))
            "error setting channel attenuation off: "
        else pure frame
      pure ({ st with channelVolumes := st.channelVolumes.set note.channel note.volume },
            frame, false)
    else pure (st, frame, isBlank)
  if note.hasPitch ∧ note.channel < 3 then do
    let frame ← mapErr (frame.setSquarePeriod note.channel (periodOf note.pitch))
      "error setting channel period: "
    let chOff ← goIndex st.channelOffs note.channel
    let (st, frame) ←
      if chOff then do
        let vol ← goIndex st.channelVolumes note.channel
        let frame ← mapErr (frame.setAttenuation note.channel (sub8 0xf vol))
          "error setting channel on: "
        pure ({ st with channelOffs := st.channelOffs.set note.channel false }, frame)
      else pure (st, frame)
    pure (st, frame, false)
  else if note.hasPitch ∧ note.channel = 3 then
    if st.noiseRateType = NoiseRateTypeEnum.noiseRateCh3 then do
      let frame ← mapErr (frame.setSquarePeriod 2 (periodOf note.pitch))
        "error setting noise period: "
      let chOff ← goIndex st.channelOffs 3
      let (st, frame) ←
        if chOff then do
          let vol ← goIndex st.channelVolumes 3
          let frame ← mapErr (frame.setAttenuation 3 (sub8 0xf vol))
            "error setting noise attenuation: "
          pure ({ st with channelOffs := st.channelOffs.set 3 false }, frame)
        else pure (st, frame)
      pure (st, frame, false)
    else
      match
        (if note.pitch.tmod 12 = 0 then some NoiseRate.lowNoise
         else if note.pitch.tmod 12 = 1 then some NoiseRate.mediumNoise
         else if note.pitch.tmod 12 = 2 then some NoiseRate.highNoise
         else none) with
      | none =>
          .error ("unable to convert noise pitch " ++ toString note.pitch ++
            " into a noise mode preset")
      | some preset => do
          let frame ← mapErr (frame.setNoiseControl st.noiseMode preset)
            "error setting noise control values: "
          let chOff ← goIndex st.channelOffs 3
          let (st, frame) ←
            if chOff then do
              let vol ← goIndex st.channelVolumes 3
              let frame ← mapErr (frame.setAttenuation 3 (sub8 0xf vol))
                "error setting noise attenuation: "
              pure ({ st with channelOffs := st.channelOffs.set 3 false }, frame)
            else pure (st, frame)
          pure (st, frame, false)
  else
    pure (st, frame, isBlank)

/-- The note loop of `parseNmos` over a row's notes. -/
def applyNotes (periodOf : Int → Nat) : List FurnaceNote → (LowerState × Frame × Bool) →
    Except String (LowerState × Frame × Bool)
  | [], acc => .ok acc
  | n :: rest, acc =>
      match applyNote periodOf acc n with
      | .error e => .error e
      | .ok acc' => applyNotes periodOf rest acc'

/-- End-of-row bookkeeping of `parseNmos`: the halt branch sets the loop
target to the current frame count and appends the content frame plus a
terminal `loopToTarget` frame; otherwise the content frame is appended
unconditionally, and the looped branch then appends the content frame *a
second time* followed by the terminal frame.  The returned `Bool` is whether
the row loop continues. -/
def appendRowFrame (frame : Frame) (st : LowerState) : LowerState × Bool :=
  if st.isHalted then
    ({ st with song := { st.song with
        loopTarget := st.song.frames.length,
        frames := st.song.frames ++ [frame, { loopToTarget := true }] } }, false)
  else
    let st' := { st with song := { st.song with frames := st.song.frames ++ [frame] } }
    if st'.isLooped then
      ({ st' with song := { st'.song with
          frames := st'.song.frames ++ [frame, { loopToTarget := true }] } }, false)
    else (st', true)

/-- The row loop of `parseNmos`.  `fuel` bounds the iteration count: every
iteration strictly increases `rowIndex` (forward jumps multiply a strictly
larger pattern number by a positive pattern length; the divide-by-zero case
errors out), so `rows.length + 1` iterations always suffice and the
fuel-exhausted branch is unreachable from `parseNmosModel`. -/
def lowerRows (solver : ℚ → Option (Nat × Nat)) (periodOf : Int → Nat)
    (sub : FurnaceSubsong) : Nat → Nat → LowerState → Except String LowerState
  | 0, rowIndex, st =>
      if rowIndex < sub.rows.length then .error "model: fuel exhausted" else .ok st
  | fuel + 1, rowIndex, st =>
      match sub.rows.get? rowIndex with
      | none => .ok st
      | some row =>
          match applyEffects solver sub rowIndex row.effects
              (st, ({ commands := [] } : Frame), true, rowIndex + 1) with
          | .error e => .error e
          | .ok (st, frame, isBlank, newIndex) =>
              let frame := { frame with frameDelay := st.baseFrameDelay }
              match applyNotes periodOf row.notes (st, frame, isBlank) with
              | .error e => .error e
              | .ok (st, frame, isBlank) =>
                  if isBlank then
                    match st.song.frames.getLast? with
                    | none => .error "panic: index out of range"
                    | some prevFrame =>
                        if prevFrame.frameDelay + st.baseFrameDelay ≤ 255 then
                          lowerRows solver periodOf sub fuel newIndex
                            { st with song := { st.song with
                                frames := addDelayToLast st.song.frames st.baseFrameDelay } }
                        else
                          match appendRowFrame frame st with
                          | (st', true) => lowerRows solver periodOf sub fuel newIndex st'
                          | (st', false) => .ok st'
                  else
                    match appendRowFrame frame st with
                    | (st', true) => lowerRows solver periodOf sub fuel newIndex st'
                    | (st', false) => .ok st'

/-- `parseNmos`: subsong lookup, title assembly, initial tempo solve,
clock-div rejection, reset frame, row loop, and the fallthrough terminal
frame.  (`SetAttenuation` errors on the reset frame are ignored by the Go
code; `SetNoiseControl` errors are checked.) -/
def parseNmosModel (solver : ℚ → Option (Nat × Nat)) (periodOf : Int → Nat)
    (parsedSong : FurnaceSong) (subsongIndex : Nat) : Except String NmosSong :=
  match parsedSong.subsongs.get? subsongIndex with
  | none => .error "subsong does not exist"
  | some subsong =>
      let name :=
        (if parsedSong.name ≠ "" then
          parsedSong.name ++ (if subsong.name ≠ "" then " - " else "")
         else "") ++
        (if subsong.name ≠ "" then subsong.name else "") ++
        (if parsedSong.album ≠ "" then " (from " ++ parsedSong.album ++ ")" else "")
      match subsong.speeds.get? 0 with
      | none => .error "panic: index out of range"
      | some speed0 =>
          let finalTickrate :=
            subsong.tickRate / ((speed0 : ℚ) * ((subsong.timeBase : ℚ) + 1))
          match solver finalTickrate with
          | none => .error "unable to find compatible tickrate within an acceptable tolerance"
          | some (tempo, baseFrameDelay) =>
              match parsedSong.soundChips.get? 0 with
              | none => .error "panic: index out of range"
              | some chip =>
                  if chip.clockDiv then
                    .error "Clock rate of 2 MHz is not currently supported by the NMOScillator"
                  else
                    match ({ commands := [] } : Frame).setNoiseControl
                        NoiseMode.whiteNoise NoiseRate.channel3Noise with
                    | .error e => .error ("error generating reset frame: " ++ e)
                    | .ok rf0 =>
                        let resetFrame := [0, 1, 2, 3].foldl
                          (fun f c =>
                            match f.setAttenuation c 0xf with
                            | .ok f' => f'
                            | .error _ => f) rf0
                        let st0 : LowerState :=
                          { song := { name := name, author := parsedSong.author,
                                      initialTempo := tempo, clockDiv := chip.clockDiv,
                                      frames := [resetFrame], loopTarget := 0 },
                            baseFrameDelay := baseFrameDelay,
                            noiseRateType := NoiseRateTypeEnum.noiseRateCh3,
                            noiseMode := NoiseMode.periodicNoise,
                            currentSpeed := speed0,
                            currentTickRate := subsong.tickRate,
                            channelVolumes := [0xf, 0xf, 0xf, 0xf],
                            channelOffs := [true, true, true, true],
                            isHalted := false, isLooped := false }
                        match lowerRows solver periodOf subsong (subsong.rows.length + 1) 0 st0 with
                        | .error e => .error e
                        | .ok st =>
                            if ¬(st.isHalted ∨ st.isLooped) then
                              .ok { st.song with
                                frames := st.song.frames ++ [{ loopToTarget := true }],
                                loopTarget := 0 }
                            else .ok st.song

/-- A constant stand-in for the floating-point tempo solver: every target
rate solves to tempo 94 with base frame delay 6 (the values the real solver
produces for the 20/3 Hz target of these inputs). -/
def fixedSolver : ℚ → Option (Nat × Nat) := fun _ => some (94, 6)

/-- The loop-triggering one-row subsong of the C1 failing input: pattern
length 1, speeds `[3]`, one row whose only content is the backward jump
`0B00` (`JumpToPattern 0` with `0 ≤` current pattern). -/
def loopRowSubsong : FurnaceSubsong :=
  { tickRate := 20, patternLength := 1, speeds := [3],
    rows := [{ index := 0, effects := [{ type := EffectType.jumpToPattern, value := 0 }] }] }

/-- C1.  Evaluating the lowering engine on the loop-triggering row: after
the reset frame the output contains the content frame *twice* followed by
the terminal `loopToTarget` frame (4 frames in total), because the looped
branch appends the content frame again after the unconditional append —
the engine does not append the current frame exactly once as the spec's
loop-handling step states. -/
theorem loop_row_appends_content_frame_twice :
    (parseNmosModel fixedSolver (fun _ => 0)
        { soundChips := [{ index := 0 }], subsongs := [loopRowSubsong] } 0).map
      (fun song => (song.frames.length, song.frames.drop 1, song.loopTarget)) =
    .ok (4,
      [{ frameDelay := 6 }, { frameDelay := 6 }, { loopToTarget := true }], 1) := by
  decide

/-- The C7 failing input: a row arming the noise-preset mode (effect `2001`:
preset rate, white mode) followed by a row with a bare pitch on channel 3. -/
def noisePresetSubsong (pitch : Int) : FurnaceSubsong :=
  { tickRate := 20, patternLength := 2, speeds := [3],
    rows := [{ index := 0, effects := [{ type := EffectType.noiseControl, value := 1 }] },
             { index := 1,
               notes := [{ pitch := pitch, hasPitch := true, channel := 3 }] }] }

/-- C7.  With the noise channel in preset mode, the pitch −47 — musically a
C♯ (−47 ≡ 1 (mod 12)) — is rejected as fatal, because Go's `%` gives the
truncated remainder −11 which matches no preset; while the non-negative
pitch 14 (a D, remainder 2) lowers to `SetNoiseControl(White, High)` plus
the re-enabling attenuation command. -/
theorem noise_preset_negative_pitch_fatal :
    parseNmosModel fixedSolver (fun _ => 0)
        { soundChips := [{ index := 0 }], subsongs := [noisePresetSubsong (-47)] } 0 =
      .error "unable to convert noise pitch -47 into a noise mode preset" ∧
    (parseNmosModel fixedSolver (fun _ => 0)
        { soundChips := [{ index := 0 }], subsongs := [noisePresetSubsong 14] } 0).map
      (fun song => song.frames.get? 2) =
    .ok (some
      { commands :=
          [{ commandType := CommandType.setNoiseControlCommand, channel := 3,
             noiseMode := NoiseMode.whiteNoise, noiseRate := NoiseRate.highNoise },
           { commandType := CommandType.setAttenuationCommand, channel := 3,
             attenuation := 0 }],
        frameDelay := 6 }) := by
  constructor
  · decide
  · decide

/-! ## Frames built through the Frame API, and the compile/size law (C6) -/

/-- Two commands collide in the sense of `commandAlreadyExists`: same type,
and (for non-noise commands) same channel. -/
def cmdConflict (a b : Command) : Prop :=
  a.commandType = b.commandType ∧
    (a.commandType = CommandType.setNoiseControlCommand ∨ a.channel = b.channel)

/-- Field ranges enforced by the Frame API per command type. -/
def cmdOK (c : Command) : Prop :=
  match c.commandType with
  | CommandType.setSquarePeriodCommand => c.channel ≤ 2 ∧ c.period ≤ maxSquarePeriod
  | CommandType.setAttenuationCommand => c.channel ≤ 3 ∧ c.attenuation ≤ maxAttenuation
  | CommandType.setNoiseControlCommand => c.channel = 3

/-- The invariant every frame reachable through the Frame API satisfies. -/
structure FrameOK (f : Frame) : Prop where
  tempo_le : f.tempo ≤ maxTempo
  delay_le : f.frameDelay ≤ 255
  cmds_ok : ∀ c ∈ f.commands, cmdOK c
  cmds_pairwise : f.commands.Pairwise fun a b => ¬cmdConflict a b

/-- Frames built through the Frame API: start from the zero `Frame` and apply
any sequence of successful `SetNewTempo` / `SetSquarePeriod` /
`SetAttenuation` / `SetNoiseControl` calls, direct `FrameDelay` assignments
(a `uint8`, hence `≤ 255`) and `LoopToTarget` assignments — exactly the
operations the lowering engine performs on a frame. -/
inductive BuiltFrame : Frame → Prop where
  | empty : BuiltFrame { commands := [] }
  | newTempo {f f' : Frame} {t : Nat} :
      BuiltFrame f → f.setNewTempo t = .ok f' → BuiltFrame f'
  | squarePeriod {f f' : Frame} {ch p : Nat} :
      BuiltFrame f → f.setSquarePeriod ch p = .ok f' → BuiltFrame f'
  | attenuation {f f' : Frame} {ch a : Nat} :
      BuiltFrame f → f.setAttenuation ch a = .ok f' → BuiltFrame f'
  | noiseControl {f f' : Frame} {m : NoiseMode} {r : NoiseRate} :
      BuiltFrame f → f.setNoiseControl m r = .ok f' → BuiltFrame f'
  | setDelay {f : Frame} {d : Nat} :
      BuiltFrame f → d ≤ 255 → BuiltFrame { f with frameDelay := d }
  | setLoop {f : Frame} {b : Bool} :
      BuiltFrame f → BuiltFrame { f with loopToTarget := b }

theorem commandAlreadyExists_false {f : Frame} {ct : CommandType} {ch : Nat}
    (h : f.commandAlreadyExists ct ch = false) :
    ∀ c ∈ f.commands, ¬(c.commandType = ct ∧
      (c.commandType = CommandType.setNoiseControlCommand ∨ c.channel = ch)) := by
  intro c hc hcontr
  simp only [Frame.commandAlreadyExists, List.any_eq_false] at h
  have := h c hc
  rcases hcontr with ⟨h1, h2 | h2⟩
  · have hct : ct = CommandType.setNoiseControlCommand := h1.symm.trans h2
    simp [h1, hct] at this
  · simp [h1, h2] at this

theorem builtFrame_frameOK {f : Frame} (h : BuiltFrame f) : FrameOK f := by
  induction h with
  | empty => exact ⟨Nat.zero_le _, Nat.zero_le _, by simp, by simp⟩
  | newTempo _ hstep ih =>
      unfold Frame.setNewTempo at hstep
      split at hstep
      · exact absurd hstep (by simp)
      · split at hstep
        · exact absurd hstep (by simp)
        · rename_i hTempoLe
          cases hstep
          exact ⟨Nat.le_of_not_lt hTempoLe, ih.delay_le, ih.cmds_ok, ih.cmds_pairwise⟩
  | squarePeriod _ hstep ih =>
      unfold Frame.setSquarePeriod at hstep
      split at hstep
      · exact absurd hstep (by simp)
      · split at hstep
        · exact absurd hstep (by simp)
        · split at hstep
          · exact absurd hstep (by simp)
          · rename_i hch hp hdup
            cases hstep
            refine ⟨ih.tempo_le, ih.delay_le, ?_, ?_⟩
            · intro c hc
              rcases List.mem_append.mp hc with hc | hc
              · exact ih.cmds_ok c hc
              · rcases List.mem_singleton.mp hc with rfl
                exact ⟨Nat.le_of_not_lt hch, Nat.le_of_not_lt hp⟩
            · rw [List.pairwise_append]
              refine ⟨ih.cmds_pairwise, by simp, ?_⟩
              intro a ha b hb
              rcases List.mem_singleton.mp hb with rfl
              have hex := commandAlreadyExists_false (by simpa using hdup) a ha
              intro hconf
              exact hex ⟨hconf.1, by simpa using hconf.2⟩
  | attenuation _ hstep ih =>
      unfold Frame.setAttenuation at hstep
      split at hstep
      · exact absurd hstep (by simp)
      · split at hstep
        · exact absurd hstep (by simp)
        · split at hstep
          · exact absurd hstep (by simp)
          · rename_i hch hatt hdup
            cases hstep
            refine ⟨ih.tempo_le, ih.delay_le, ?_, ?_⟩
            · intro c hc
              rcases List.mem_append.mp hc with hc | hc
              · exact ih.cmds_ok c hc
              · rcases List.mem_singleton.mp hc with rfl
                exact ⟨Nat.le_of_not_lt hch, Nat.le_of_not_lt hatt⟩
            · rw [List.pairwise_append]
              refine ⟨ih.cmds_pairwise, by simp, ?_⟩
              intro x hx b hb
              rcases List.mem_singleton.mp hb with rfl
              have hex := commandAlreadyExists_false (by simpa using hdup) x hx
              intro hconf
              exact hex ⟨hconf.1, by simpa using hconf.2⟩
  | noiseControl _ hstep ih =>
      unfold Frame.setNoiseControl at hstep
      split at hstep
      · exact absurd hstep (by simp)
      · rename_i hdup
        cases hstep
        refine ⟨ih.tempo_le, ih.delay_le, ?_, ?_⟩
        · intro c hc
          rcases List.mem_append.mp hc with hc | hc
          · exact ih.cmds_ok c hc
          · rcases List.mem_singleton.mp hc with rfl
            exact rfl
        · rw [List.pairwise_append]
          refine ⟨ih.cmds_pairwise, by simp, ?_⟩
          intro x hx b hb
          rcases List.mem_singleton.mp hb with rfl
          have hex := commandAlreadyExists_false (by simpa using hdup) x hx
          intro hconf
          exact hex ⟨hconf.1, Or.inl hconf.1⟩
  | setDelay _ hd ih =>
      exact ⟨ih.tempo_le, hd, ih.cmds_ok, ih.cmds_pairwise⟩
  | setLoop _ ih =>
      exact ⟨ih.tempo_le, ih.delay_le, ih.cmds_ok, ih.cmds_pairwise⟩

/-- A key that non-conflicting in-range commands cannot share.  Square-period
channels occupy 0–2, attenuation channels occupy 3–6, noise control is 7. -/
def cmdKey (c : Command) : Nat :=
  match c.commandType with
  | CommandType.setSquarePeriodCommand => c.channel
  | CommandType.setAttenuationCommand => 3 + c.channel
  | CommandType.setNoiseControlCommand => 7

theorem nodup_lt_length_le (l : List Nat) (n : Nat) (hnd : l.Nodup)
    (hlt : ∀ x ∈ l, x < n) : l.length ≤ n := by
  classical
  have h1 : l.toFinset.card = l.length := List.toFinset_card_of_nodup hnd
  have h2 : l.toFinset ⊆ Finset.range n := by
    intro x hx
    exact Finset.mem_range.mpr (hlt x (List.mem_toFinset.mp hx))
  have := Finset.card_le_card h2
  rw [h1, Finset.card_range] at this
  exact this

theorem cmdKey_eq_of_ok {a b : Command} (ha : cmdOK a) (hb : cmdOK b)
    (h : cmdKey a = cmdKey b) : cmdConflict a b := by
  obtain ⟨cta, cha, pa, aa, ma, ra⟩ := a
  obtain ⟨ctb, chb, pb, ab, mb, rb⟩ := b
  cases cta <;> cases ctb <;>
    simp only [cmdOK, cmdKey, cmdConflict] at * <;> simp_all <;> omega

theorem frameOK_length_le {f : Frame} (h : FrameOK f) : f.commands.length ≤ 8 := by
  have hnd : (f.commands.map cmdKey).Nodup := by
    unfold List.Nodup
    rw [List.pairwise_map]
    refine h.cmds_pairwise.imp_of_mem ?_
    intro a b ha hb hnc heq
    exact hnc (cmdKey_eq_of_ok (h.cmds_ok a ha) (h.cmds_ok b hb) heq)
  have hlt : ∀ x ∈ f.commands.map cmdKey, x < 8 := by
    intro x hx
    rcases List.mem_map.mp hx with ⟨c, hc, rfl⟩
    have hok := h.cmds_ok c hc
    obtain ⟨ct, ch, p, a, m, r⟩ := c
    cases ct <;> simp only [cmdOK, cmdKey] at * <;> omega
  have := nodup_lt_length_le _ 8 hnd hlt
  simpa using this

theorem wireSum_cons (c : Command) (cs : List Command) :
    wireSum (c :: cs) = commandWireLength c + wireSum cs := by
  simp [wireSum]

theorem wireSum_eq_length_add_filter (cs : List Command) :
    wireSum cs = cs.length +
      (cs.filter fun c => c.commandType == CommandType.setSquarePeriodCommand).length := by
  induction cs with
  | nil => rfl
  | cons c cs ih =>
      rw [wireSum_cons, ih, List.filter_cons, List.length_cons]
      by_cases hc : c.commandType = CommandType.setSquarePeriodCommand
      · simp only [commandWireLength, hc, if_pos rfl, beq_self_eq_true, if_pos,
          List.length_cons]
        omega
      · simp only [commandWireLength, if_neg hc]
        rw [if_neg (by simpa using hc)]
        omega

theorem frameOK_periods_le {f : Frame} (h : FrameOK f) :
    (f.commands.filter fun c =>
      c.commandType == CommandType.setSquarePeriodCommand).length ≤ 3 := by
  classical
  set ps := f.commands.filter fun c =>
    c.commandType == CommandType.setSquarePeriodCommand with hps
  have hsub : ps.Sublist f.commands := List.filter_sublist _
  have hpair : ps.Pairwise fun a b => ¬cmdConflict a b :=
    h.cmds_pairwise.sublist hsub
  have hmem : ∀ c ∈ ps, c.commandType = CommandType.setSquarePeriodCommand := by
    intro c hc
    have := List.of_mem_filter hc
    simpa using this
  have hnd : (ps.map Command.channel).Nodup := by
    unfold List.Nodup
    rw [List.pairwise_map]
    refine hpair.imp_of_mem ?_
    intro a b ha hb hnc heq
    exact hnc ⟨(hmem a ha).trans (hmem b hb).symm, Or.inr heq⟩
  have hlt : ∀ x ∈ ps.map Command.channel, x < 3 := by
    intro x hx
    rcases List.mem_map.mp hx with ⟨c, hc, rfl⟩
    have hok := h.cmds_ok c (hsub.mem hc)
    have hct := hmem c hc
    obtain ⟨ct, ch, p, a, m, r⟩ := c
    subst hct
    simp only [cmdOK] at hok
    show ch < 3
    omega
  have := nodup_lt_length_le _ 3 hnd hlt
  simpa using this

theorem frameOK_wireSum_le {f : Frame} (h : FrameOK f) : wireSum f.commands ≤ 11 := by
  have h1 := frameOK_length_le h
  have h2 := frameOK_periods_le h
  rw [wireSum_eq_length_add_filter]
  omega

theorem toBytes_length (c : Command) : c.toBytes.length = commandWireLength c := by
  obtain ⟨ct, ch, p, a, m, r⟩ := c
  cases ct <;> rfl

theorem emitLoop_exit (f : Frame) (fuel chipIdx lastCommand : Nat) (acc : List Nat)
    (c : Int) (hc : c ≤ 0) : emitLoop f fuel c chipIdx lastCommand acc = .ok acc := by
  cases fuel with
  | zero => unfold emitLoop; rw [if_neg (by omega)]
  | succ k => unfold emitLoop; rw [if_pos hc]

theorem emitLoop_length (f : Frame) :
    ∀ (fuel : Nat), ∀ (chipIdx pad lastCommand : Nat) (acc : List Nat) (n : Nat),
      n = 1 + wireSum (f.commands.drop chipIdx) + pad →
      n ≤ 13 → n ≤ fuel →
      ∃ out, emitLoop f fuel (n : Int) chipIdx lastCommand acc = .ok out ∧
        out.length = acc.length + n := by
  intro fuel
  induction fuel with
  | zero =>
      intro chipIdx pad last acc n hn h13 hfuel
      exact absurd hfuel (by omega)
  | succ fuel ih =>
      intro chipIdx pad last acc n hn h13 hfuel
      have hn1 : 1 ≤ n := by omega
      rcases hrem : f.commands.drop chipIdx with _ | ⟨cmd, rest⟩
      · rw [hrem] at hn
        have hwnil : wireSum [] = 0 := rfl
        rw [hwnil] at hn
        rcases Nat.eq_zero_or_pos pad with rfl | hpad
        · -- `n = 1`: emit the frame-delay byte, then the loop exits.
          have hne : n = 1 := by omega
          subst hne
          refine ⟨acc ++ [f.frameDelay], ?_, by simp⟩
          unfold emitLoop
          rw [if_neg (by omega), if_neg (by omega), if_pos (by omega)]
          exact emitLoop_exit f fuel chipIdx last (acc ++ [f.frameDelay]) _ (by omega)
        · -- chip commands exhausted, `pad` filler bytes remain.
          have hchip : f.commands.length ≤ chipIdx := List.drop_eq_nil_iff.mp hrem
          obtain ⟨out, hout, hlen⟩ := ih chipIdx (pad - 1) last (acc ++ [last]) (n - 1)
            (by rw [hrem, hwnil]; omega) (by omega) (by omega)
          refine ⟨out, ?_, by rw [hlen]; simp; omega⟩
          unfold emitLoop
          rw [if_neg (by omega), if_neg (by omega), if_neg (by omega),
            if_pos (show 1 < ((n : Nat) : Int) ∧ ((n : Nat) : Int) < 14 by
              constructor <;> omega),
            if_pos (show chipIdx ≥ f.commands.length from hchip)]
          have hcast : ((n : Nat) : Int) - 1 = (((n - 1 : Nat) : Nat) : Int) := by omega
          rw [hcast]
          exact hout
      · -- next chip command: emit its 1 or 2 bytes.
        have hchiplt : chipIdx < f.commands.length := by
          by_contra hle
          have hnil : f.commands.drop chipIdx = [] :=
            List.drop_eq_nil_iff.mpr (by omega)
          exact absurd (hnil.symm.trans hrem) (by simp)
        have hget : f.commands.get? chipIdx = some cmd := by
          have h0 : (f.commands.drop chipIdx).get? 0 = some cmd := by rw [hrem]; rfl
          rw [List.get?_drop] at h0
          simpa using h0
        have hdropsucc : f.commands.drop (chipIdx + 1) = rest := by
          have hdd : (f.commands.drop chipIdx).drop 1 = f.commands.drop (chipIdx + 1) :=
            List.drop_drop 1 chipIdx f.commands
          rw [← hdd, hrem]
          rfl
        have hw12 : commandWireLength cmd = 1 ∨ commandWireLength cmd = 2 := by
          unfold commandWireLength
          split <;> simp
        have hnw : n = 1 + commandWireLength cmd + wireSum rest + pad := by
          rw [hn, hrem, wireSum_cons]
          omega
        obtain ⟨out, hout, hlen⟩ := ih (chipIdx + 1) pad (cmd.toBytes.getLastD 0)
          (acc ++ cmd.toBytes) (n - commandWireLength cmd)
          (by rw [hdropsucc]; omega) (by omega) (by omega)
        refine ⟨out, ?_, ?_⟩
        · unfold emitLoop
          rw [if_neg (by omega), if_neg (by omega), if_neg (by omega),
            if_pos (show 1 < ((n : Nat) : Int) ∧ ((n : Nat) : Int) < 14 by
              constructor <;> omega),
            if_neg (show ¬chipIdx ≥ f.commands.length by omega)]
          simp only [hget]
          have hcast : ((n : Nat) : Int) - (cmd.toBytes.length : Int) =
              (((n - commandWireLength cmd : Nat) : Nat) : Int) := by
            rw [toBytes_length]
            omega
          rw [hcast]
          exact hout
        · rw [hlen]
          simp [toBytes_length]
          omega

theorem and_fifteen_of_lt {n : Nat} (h : n < 16) : n &&& 15 = n := by
  interval_cases n <;> rfl

theorem emitLoop_tempo_step (f : Frame) (fuel chipIdx lastCommand : Nat)
    (acc : List Nat) (hT : f.hasTempoChange = true) :
    emitLoop f (fuel + 1) (14 : Int) chipIdx lastCommand acc =
      emitLoop f fuel (13 : Int) chipIdx lastCommand (acc ++ [f.tempo &&& 0x7f]) := by
  conv_lhs => unfold emitLoop
  rw [if_neg (by omega), if_pos (by omega : (14 : Int) = 14), if_pos hT]
  norm_num

theorem compileFrame_length (flag : Bool) (f : Frame) (hOK : FrameOK f) :
    ∃ out, compileFrame flag f = .ok out ∧ out.length = f.calculateSize := by
  have hws := frameOK_wireSum_le hOK
  have hdrop0 : f.commands.drop 0 = f.commands := rfl
  by_cases hT : f.hasTempoChange
  · -- tempo frames are 15 bytes: header, tempo byte, 12 chip/filler bytes, delay.
    have hsize : f.calculateSize = 15 := by simp [Frame.calculateSize, hT]
    obtain ⟨out, hout, hlen⟩ := emitLoop_length f 14 0 (12 - wireSum f.commands) 0
      ([] ++ [f.tempo &&& 0x7f]) 13 (by rw [hdrop0]; omega) (by omega) (by omega)
    refine ⟨(((if flag then 0x80 else 0) |||
        (if f.loopToTarget then 0x40 else 0)) |||
          ((((15 &&& 0x0f : Nat) : Int) - 1).emod 256).toNat) :: out, ?_, ?_⟩
    · show (match emitLoop f f.calculateSize
          (((f.calculateSize &&& 0x0f : Nat) : Int) - 1) 0 0 [] with
        | .error e => Except.error e
        | .ok body => Except.ok ((((if flag then 0x80 else 0) |||
            (if f.loopToTarget then 0x40 else 0)) |||
              ((((f.calculateSize &&& 0x0f : Nat) : Int) - 1).emod 256).toNat) :: body)) = _
      rw [hsize]
      have h14 : (((15 &&& 0x0f : Nat) : Int) - 1) = (14 : Int) := by norm_num
      rw [h14]
      rw [emitLoop_tempo_step f 14 0 0 [] hT]
      have h13 : (13 : Int) = ((13 : Nat) : Int) := by norm_num
      rw [h13, hout]
    · rw [hsize, List.length_cons, hlen]
      simp
  · by_cases hblank : f.commands = [] ∧ f.frameDelay = 0
    · -- blank frame: a single header byte.
      have hsize : f.calculateSize = 1 := by
        rw [calculateSize_eq_spec_form]
        simp [hT, hblank.1, hblank.2, wireSum]
      refine ⟨[(((if flag then 0x80 else 0) |||
          (if f.loopToTarget then 0x40 else 0)) |||
            ((((1 &&& 0x0f : Nat) : Int) - 1).emod 256).toNat)], ?_, by simp [hsize]⟩
      show (match emitLoop f f.calculateSize
          (((f.calculateSize &&& 0x0f : Nat) : Int) - 1) 0 0 [] with
        | .error e => Except.error e
        | .ok body => Except.ok ((((if flag then 0x80 else 0) |||
            (if f.loopToTarget then 0x40 else 0)) |||
              ((((f.calculateSize &&& 0x0f : Nat) : Int) - 1).emod 256).toNat) :: body)) = _
      rw [hsize]
      rw [emitLoop_exit f 1 0 0 [] _ (by norm_num)]
    · -- commands or a delay: header, wire bytes, delay byte.
      have hsize : f.calculateSize = wireSum f.commands + 2 := by
        rw [calculateSize_eq_spec_form]
        have : f.commands ≠ [] ∨ 0 < f.frameDelay := by
          rcases Decidable.em (f.commands = []) with hc | hc
          · right
            rcases Decidable.em (f.frameDelay = 0) with hd | hd
            · exact absurd ⟨hc, hd⟩ hblank
            · omega
          · exact Or.inl hc
        simp [hT, this]
        omega
      have hlt16 : wireSum f.commands + 2 < 16 := by omega
      obtain ⟨out, hout, hlen⟩ := emitLoop_length f (wireSum f.commands + 2) 0 0 0 []
        (wireSum f.commands + 1) (by rw [hdrop0]; omega) (by omega) (by omega)
      refine ⟨(((if flag then 0x80 else 0) |||
          (if f.loopToTarget then 0x40 else 0)) |||
            ((((wireSum f.commands + 2 &&& 0x0f : Nat) : Int) - 1).emod 256).toNat) :: out,
        ?_, ?_⟩
      · show (match emitLoop f f.calculateSize
            (((f.calculateSize &&& 0x0f : Nat) : Int) - 1) 0 0 [] with
          | .error e => Except.error e
          | .ok body => Except.ok ((((if flag then 0x80 else 0) |||
              (if f.loopToTarget then 0x40 else 0)) |||
                ((((f.calculateSize &&& 0x0f : Nat) : Int) - 1).emod 256).toNat) :: body)) = _
        rw [hsize]
        have hand : (wireSum f.commands + 2) &&& 0x0f = wireSum f.commands + 2 :=
          and_fifteen_of_lt hlt16
        rw [hand]
        have hcast : (((wireSum f.commands + 2 : Nat) : Int) - 1) =
            ((wireSum f.commands + 1 : Nat) : Int) := by omega
        rw [hcast, hout]
      · rw [hsize, List.length_cons, hlen]
        simp

/-- Emitting frame `i` (with frame 0 receiving the injected initial tempo)
produces exactly `songFrameSize i f` bytes. -/
theorem compileFrame_inject_length (s : NmosSong) (i : Nat) (f : Frame)
    (hOK : FrameOK f) (ht : s.initialTempo ≤ maxTempo) :
    ∃ out, compileFrame (i == s.loopTarget) (injectInitialTempo s i f) = .ok out ∧
      out.length = songFrameSize i f := by
  by_cases hi : i = 0
  · subst hi
    by_cases hT : f.hasTempoChange = true
    · have hid : injectInitialTempo s 0 f = f := by
        unfold injectInitialTempo Frame.setNewTempo
        rw [if_pos rfl, if_pos hT]
      rw [hid]
      have hsz : songFrameSize 0 f = f.calculateSize := by
        unfold songFrameSize
        simp [hT]
      rw [hsz]
      exact compileFrame_length _ f hOK
    · have hinj : injectInitialTempo s 0 f =
          { f with tempo := s.initialTempo, hasTempoChange := true } := by
        unfold injectInitialTempo Frame.setNewTempo
        rw [if_pos rfl, if_neg hT, if_neg (by unfold maxTempo at ht ⊢; omega)]
      rw [hinj]
      have hOK' : FrameOK { f with tempo := s.initialTempo, hasTempoChange := true } :=
        ⟨ht, hOK.delay_le, hOK.cmds_ok, hOK.cmds_pairwise⟩
      obtain ⟨out, h1, h2⟩ := compileFrame_length ((0 : Nat) == s.loopTarget) _ hOK'
      refine ⟨out, h1, ?_⟩
      rw [h2]
      have h15 : Frame.calculateSize
          { f with tempo := s.initialTempo, hasTempoChange := true } = 15 := by
        simp [Frame.calculateSize]
      rw [h15]
      unfold songFrameSize
      simp [hT]
  · have hid : injectInitialTempo s i f = f := by
      unfold injectInitialTempo
      rw [if_neg hi]
    rw [hid]
    have hsz : songFrameSize i f = f.calculateSize := by
      unfold songFrameSize
      simp [hi]
    rw [hsz]
    exact compileFrame_length _ f hOK

theorem compileFrames_length (s : NmosSong) (ht : s.initialTempo ≤ maxTempo) :
    ∀ (fs : List Frame) (k : Nat), (∀ f ∈ fs, FrameOK f) →
      ∃ out, compileFrames s (fs.enumFrom k) = .ok out ∧
        out.length = ((fs.enumFrom k).map fun p => songFrameSize p.1 p.2).sum := by
  intro fs
  induction fs with
  | nil => intro k _; exact ⟨[], rfl, rfl⟩
  | cons f fs ih =>
      intro k h
      obtain ⟨out1, h1, hl1⟩ := compileFrame_inject_length s k f (h f (by simp)) ht
      obtain ⟨out2, h2, hl2⟩ := ih (k + 1) fun x hx => h x (by simp [hx])
      refine ⟨out1 ++ out2, ?_, ?_⟩
      · show (match compileFrame (k == s.loopTarget) (injectInitialTempo s k f) with
          | .error e => Except.error e
          | .ok bytes =>
              match compileFrames s (fs.enumFrom (k + 1)) with
              | .error e => Except.error e
              | .ok restBytes => Except.ok (bytes ++ restBytes)) = _
        rw [h1, h2]
      · simp only [List.enumFrom, List.map_cons, List.sum_cons, List.length_append, hl1, hl2]

/-- C6, amended.  For every `NmosSong` whose frames were all built through
the Frame API and whose `initialTempo` respects its documented 0..127 range,
`Compile` succeeds (no size-mismatch error) and the byte slice's length
equals `CalculateSize`, with frame 0 counted as 15 bytes whenever it lacks
an explicit tempo change (it receives the injected initial tempo). -/
theorem compile_length_eq_calculateSize (s : NmosSong)
    (hbuilt : ∀ f ∈ s.frames, BuiltFrame f) (ht : s.initialTempo ≤ maxTempo) :
    ∃ bytes, s.compile = .ok bytes ∧ bytes.length = s.calculateSize := by
  have hOK : ∀ f ∈ s.frames, FrameOK f := fun f hf => builtFrame_frameOK (hbuilt f hf)
  obtain ⟨out, h1, h2⟩ := compileFrames_length s ht s.frames 0 hOK
  have henum : s.frames.enum = s.frames.enumFrom 0 := rfl
  have hcalc : out.length = s.calculateSize := by
    rw [h2]
    unfold NmosSong.calculateSize
    rw [henum]
  refine ⟨out, ?_, hcalc⟩
  unfold NmosSong.compile
  rw [henum, h1]
  show (if out.length ≠ s.calculateSize then Except.error "ROM image size mismatch"
    else Except.ok out) = Except.ok out
  rw [if_neg (by simp [hcalc])]

/-- Counterexample for C6 as stated: the one-frame song below has every frame
built through the Frame API (the empty frame), yet `Compile` returns the
size-mismatch error, because its `initialTempo` 128 exceeds the 7-bit tempo
range, so the frame-0 injection fails and frame 0 is emitted at 1 byte while
`CalculateSize` counts it as 15. -/
theorem compile_mismatch_out_of_range_tempo_cex :
    (∀ f ∈ ({ initialTempo := 128, frames := [{ commands := [] }] } : NmosSong).frames,
      BuiltFrame f) ∧
    NmosSong.compile { initialTempo := 128, frames := [{ commands := [] }] } =
      .error "ROM image size mismatch" := by
  constructor
  · intro f hf
    rw [List.mem_singleton] at hf
    subst hf
    exact BuiltFrame.empty
  · decide

/-- Witness for the amended C6 at a concrete song (initial tempo 94, one
API-built frame). -/
theorem compile_length_eq_calculateSize_witness :
    ∃ bytes, NmosSong.compile { initialTempo := 94, frames := [{ commands := [] }] } =
        .ok bytes ∧
      bytes.length =
        NmosSong.calculateSize { initialTempo := 94, frames := [{ commands := [] }] } :=
  compile_length_eq_calculateSize _
    (by
      intro f hf
      rw [List.mem_singleton] at hf
      subst hf
      exact BuiltFrame.empty)
    (by decide)
